import Mathlib

/-!
Verification of the Electric Chair game solver core.

Shallow embedding of the TypeScript sources:
  * `src/types/game.ts`        — game data model (`GameState`, `TurnResult`, constants)
  * `src/utils/gameLogic.ts`   — rule engine (`processTurn`, `checkGameEnd`, roles)
  * `src/utils/stateHash.ts`   — 32-bit state codec and status derivation
  * `src/utils/stateTransitions.ts` — reachability generation (step relation)
  * `src/utils/analysisProgress.ts` — analysis driver's batch selection
  * the Nash solver's shift / renormalisation arithmetic from `gameLogic.ts`

JavaScript numbers holding non-negative integers are modelled as `Nat`;
bitwise field extraction (`>>`, `&` with a constant mask on values below
2^32) is modelled as division/modulus by the corresponding power of two,
and `|` of disjoint bit ranges as addition.  Real-valued solver arithmetic
is modelled over `ℚ` (exact; the source's floats carry the same algebra on
the inputs considered here).
-/

set_option maxHeartbeats 1600000

namespace ElectricChair

/-- `GameStatus` from `src/types/game.ts`. -/
inductive GameStatus where
  | IN_PROGRESS
  | PLAYER1_WIN
  | PLAYER2_WIN
  | DRAW
deriving DecidableEq, Repr

/-- `PlayerNumber` from `src/types/game.ts`. -/
inductive PlayerNumber where
  | PLAYER1
  | PLAYER2
deriving DecidableEq, Repr

/-- `GameState` from `src/types/game.ts`.  `chairsRemaining` is the
12-element boolean array; `winner?: PlayerNumber` becomes an `Option`. -/
structure GameState where
  currentTurn : Nat
  chairsRemaining : List Bool
  player1Score : Nat
  player2Score : Nat
  player1ElectricCount : Nat
  player2ElectricCount : Nat
  gameStatus : GameStatus
  winner : Option PlayerNumber
deriving DecidableEq, Repr

/-- `TurnResult` from `src/types/game.ts`. -/
structure TurnResult where
  attacker : PlayerNumber
  defender : PlayerNumber
  attackerChoice : Nat
  defenderChoice : Nat
  matched : Bool
  scoreGained : Nat
  electricReceived : Bool
  chairRemoved : Option Nat
  newGameState : GameState
deriving DecidableEq, Repr

/-- `MAX_SCORE` from `src/types/game.ts`. -/
def MAX_SCORE : Nat := 40

/-- `MAX_ELECTRIC_COUNT` from `src/types/game.ts`. -/
def MAX_ELECTRIC_COUNT : Nat := 3

/-- `MAX_TURNS` from `src/types/game.ts`. -/
def MAX_TURNS : Nat := 16

/-- `INITIAL_GAME_STATE` from `src/types/game.ts` (the `winner` field is
omitted there, i.e. `undefined`). -/
def INITIAL_GAME_STATE : GameState :=
  { currentTurn := 0
    chairsRemaining := List.replicate 12 true
    player1Score := 0
    player2Score := 0
    player1ElectricCount := 0
    player2ElectricCount := 0
    gameStatus := GameStatus.IN_PROGRESS
    winner := none }

/-- `getCurrentAttacker` from `src/utils/gameLogic.ts`. -/
def getCurrentAttacker (turn : Nat) : PlayerNumber :=
  if turn % 2 = 0 then PlayerNumber.PLAYER1 else PlayerNumber.PLAYER2

/-- `getCurrentDefender` from `src/utils/gameLogic.ts`. -/
def getCurrentDefender (turn : Nat) : PlayerNumber :=
  if turn % 2 = 0 then PlayerNumber.PLAYER2 else PlayerNumber.PLAYER1

/-- `getChairSelector` from `src/utils/gameLogic.ts` (delegates to
`getCurrentAttacker`). -/
def getChairSelector (turn : Nat) : PlayerNumber := getCurrentAttacker turn

/-- `getElectricSetter` from `src/utils/gameLogic.ts` (delegates to
`getCurrentDefender`). -/
def getElectricSetter (turn : Nat) : PlayerNumber := getCurrentDefender turn

/-- `getAvailableChairs` from `src/utils/gameLogic.ts`: the source maps
`(remaining, index) ↦ remaining ? index+1 : -1` then filters out the `-1`
sentinels, i.e. a `filterMap` over the indexed array. -/
def getAvailableChairs (gameState : GameState) : List Nat :=
  gameState.chairsRemaining.enum.filterMap
    (fun p => if p.2 then some (p.1 + 1) else none)

/-- `checkGameEnd` from `src/utils/gameLogic.ts` (the chair count is the
source's `chairsRemaining.filter(chair => chair).length`). -/
def checkGameEnd (gameState : GameState) : GameStatus :=
  if gameState.player1ElectricCount = MAX_ELECTRIC_COUNT then GameStatus.PLAYER2_WIN
  else if gameState.player2ElectricCount = MAX_ELECTRIC_COUNT then GameStatus.PLAYER1_WIN
  else if MAX_SCORE ≤ gameState.player1Score then GameStatus.PLAYER1_WIN
  else if MAX_SCORE ≤ gameState.player2Score then GameStatus.PLAYER2_WIN
  else
    let remainingChairs := (gameState.chairsRemaining.filter id).length
    if remainingChairs = 1 ∨ MAX_TURNS - 1 ≤ gameState.currentTurn then
      if gameState.player2Score < gameState.player1Score then GameStatus.PLAYER1_WIN
      else if gameState.player1Score < gameState.player2Score then GameStatus.PLAYER2_WIN
      else GameStatus.DRAW
    else GameStatus.IN_PROGRESS

/-- `getWinner` from `src/utils/gameLogic.ts`. -/
def getWinner (gameState : GameState) : Option PlayerNumber :=
  match gameState.gameStatus with
  | GameStatus.PLAYER1_WIN => some PlayerNumber.PLAYER1
  | GameStatus.PLAYER2_WIN => some PlayerNumber.PLAYER2
  | _ => none

/-- `processTurn` from `src/utils/gameLogic.ts`.  The source copies the
input (object spread plus a fresh copy of `chairsRemaining`) and mutates
the copy; here the sequence of mutations becomes a chain of functional
record updates on the copy.  `newState.chairsRemaining[attackerChoice-1] =
false` becomes `List.set` (choices are 1..12 wherever the surrounding
program calls this). -/
def processTurn (gameState : GameState) (attackerChoice defenderChoice : Nat) :
    TurnResult :=
  let attacker := getCurrentAttacker gameState.currentTurn
  let defender := getCurrentDefender gameState.currentTurn
  let matched := attackerChoice == defenderChoice
  -- matched / unmatched branch, updating score, shock and chairs
  let afterBranch : GameState × Nat × Bool × Option Nat :=
    if matched then
      if attacker = PlayerNumber.PLAYER1 then
        ({ gameState with player1Score := 0,
                          player1ElectricCount := gameState.player1ElectricCount + 1 },
          0, true, none)
      else
        ({ gameState with player2Score := 0,
                          player2ElectricCount := gameState.player2ElectricCount + 1 },
          0, true, none)
    else
      let removed := { gameState with
        chairsRemaining := gameState.chairsRemaining.set (attackerChoice - 1) false }
      if attacker = PlayerNumber.PLAYER1 then
        ({ removed with player1Score := removed.player1Score + attackerChoice },
          attackerChoice, false, some attackerChoice)
      else
        ({ removed with player2Score := removed.player2Score + attackerChoice },
          attackerChoice, false, some attackerChoice)
  let s1 := afterBranch.1
  -- termination is decided before the turn counter advances
  let status := checkGameEnd s1
  let s2 := { s1 with gameStatus := status }
  let s3 := { s2 with winner := getWinner s2 }
  let s4 := if s3.gameStatus = GameStatus.IN_PROGRESS then
      { s3 with currentTurn := s3.currentTurn + 1 }
    else s3
  { attacker := attacker
    defender := defender
    attackerChoice := attackerChoice
    defenderChoice := defenderChoice
    matched := matched
    scoreGained := afterBranch.2.1
    electricReceived := afterBranch.2.2.1
    chairRemoved := afterBranch.2.2.2
    newGameState := s4 }

/-! ### State codec (`src/utils/stateHash.ts`)

The 32-bit layout: bits 28-31 turn, 16-27 chairs mask, 10-15 player-1
score, 4-9 player-2 score, 2-3 player-1 shocks, 0-1 player-2 shocks.
Encodings are modelled as the unsigned 32-bit value (`Nat` below `2^32`);
the source's `|` of disjoint shifted fields is addition, `x >> k & m` is
`x / 2^k % (m+1)`. -/
/-- The encode loop `for i. if chairsRemaining[i] then chairBits |= 1<<i`
expressed recursively over the boolean array, least-significant bit
first. -/
def chairsToBits : List Bool → Nat
  | [] => 0
  | b :: rest => (if b then 1 else 0) + 2 * chairsToBits rest

/-- The decode loop `chairsRemaining[i] = (chairs & (1<<i)) != 0` for
`i = 0..n-1`, expressed recursively (bit 0 first). -/
def bitsToChairs (chairs : Nat) : Nat → List Bool
  | 0 => []
  | n + 1 => (chairs % 2 = 1) :: bitsToChairs (chairs / 2) n

/-- `GameStateHash` from `src/utils/stateHash.ts`. -/
structure GameStateHash where
  turn : Nat
  chairs : Nat
  player1Score : Nat
  player2Score : Nat
  player1Electric : Nat
  player2Electric : Nat
deriving DecidableEq, Repr

/-- `encodeGameStateHash` from `src/utils/stateHash.ts`. -/
def encodeGameStateHash (state : GameState) : Nat :=
  let chairBits := chairsToBits state.chairsRemaining
  (state.currentTurn % 16) * 2 ^ 28
    + (chairBits % 4096) * 2 ^ 16
    + (state.player1Score % 64) * 2 ^ 10
    + (state.player2Score % 64) * 2 ^ 4
    + (state.player1ElectricCount % 4) * 2 ^ 2
    + state.player2ElectricCount % 4

/-- `decodeGameStateHash` from `src/utils/stateHash.ts`. -/
def decodeGameStateHash (hash : Nat) : GameStateHash :=
  { turn := hash / 2 ^ 28 % 16
    chairs := hash / 2 ^ 16 % 4096
    player1Score := hash / 2 ^ 10 % 64
    player2Score := hash / 2 ^ 4 % 64
    player1Electric := hash / 2 ^ 2 % 4
    player2Electric := hash % 4 }

/-- `getGameStatusFromHash` from `src/utils/stateHash.ts` (the chair count
is the source's `Array.from(...bit i set...).filter(r => r).length`). -/
def getGameStatusFromHash (hash : GameStateHash) : GameStatus :=
  if hash.player1Electric = MAX_ELECTRIC_COUNT then GameStatus.PLAYER2_WIN
  else if hash.player2Electric = MAX_ELECTRIC_COUNT then GameStatus.PLAYER1_WIN
  else if MAX_SCORE ≤ hash.player1Score then GameStatus.PLAYER1_WIN
  else if MAX_SCORE ≤ hash.player2Score then GameStatus.PLAYER2_WIN
  else
    let remainingChairs := ((bitsToChairs hash.chairs 12).filter id).length
    if remainingChairs = 1 ∨ MAX_TURNS - 1 ≤ hash.turn then
      if hash.player2Score < hash.player1Score then GameStatus.PLAYER1_WIN
      else if hash.player1Score < hash.player2Score then GameStatus.PLAYER2_WIN
      else GameStatus.DRAW
    else GameStatus.IN_PROGRESS

/-- `hashToGameState` from `src/utils/stateHash.ts`; note that it always
leaves `winner` as `undefined`. -/
def hashToGameState (hash : Nat) : GameState :=
  let decoded := decodeGameStateHash hash
  { currentTurn := decoded.turn
    chairsRemaining := bitsToChairs decoded.chairs 12
    player1Score := decoded.player1Score
    player2Score := decoded.player2Score
    player1ElectricCount := decoded.player1Electric
    player2ElectricCount := decoded.player2Electric
    gameStatus := getGameStatusFromHash decoded
    winner := none }

/-! ### Step relation and reachability

`generateStateTransitions` (`src/utils/stateTransitions.ts`) expands an
in-progress state by applying `processTurn` to every ordered pair of
available chairs; `generateReachableStates` iterates this from
`INITIAL_GAME_STATE`.  `Reachable` is that transition closure. -/
/-- States reachable by legal play: repeated `processTurn` on in-progress
states with both chosen chairs available, starting at the initial state. -/
inductive Reachable : GameState → Prop where
  | init : Reachable INITIAL_GAME_STATE
  | step {s : GameState} {a b : Nat} :
      Reachable s →
      s.gameStatus = GameStatus.IN_PROGRESS →
      a ∈ getAvailableChairs s →
      b ∈ getAvailableChairs s →
      Reachable (processTurn s a b).newGameState

/-! ### Characterisation of `processTurn` -/
/-- The score/shock/chair portion of `processTurn`, before termination
detection (a reading aid for the proofs; `processTurn_newGameState` shows
it matches). -/
def stepCore (s : GameState) (a b : Nat) : GameState :=
  if a = b then
    if s.currentTurn % 2 = 0 then
      { s with player1Score := 0,
               player1ElectricCount := s.player1ElectricCount + 1 }
    else
      { s with player2Score := 0,
               player2ElectricCount := s.player2ElectricCount + 1 }
  else
    if s.currentTurn % 2 = 0 then
      { s with chairsRemaining := s.chairsRemaining.set (a - 1) false,
               player1Score := s.player1Score + a }
    else
      { s with chairsRemaining := s.chairsRemaining.set (a - 1) false,
               player2Score := s.player2Score + a }

/-- The winner recorded for a given status (`getWinner` reads only the
status field). -/
def winnerOf : GameStatus → Option PlayerNumber
  | GameStatus.PLAYER1_WIN => some PlayerNumber.PLAYER1
  | GameStatus.PLAYER2_WIN => some PlayerNumber.PLAYER2
  | _ => none

/-! ### The reachability invariant -/
/-- Invariant satisfied by every reachable state: 12 chairs tracked, the
stored status agrees with `checkGameEnd` recomputed on the fields, the
turn counter counts removals plus shocks while in progress, shocks stay
within 0..3, scores within 0..51, at least one chair remains, and the
turn stays within the 4-bit range. -/
def Inv (s : GameState) : Prop :=
  s.chairsRemaining.length = 12 ∧
  s.gameStatus = checkGameEnd s ∧
  (s.gameStatus = GameStatus.IN_PROGRESS →
    s.currentTurn + (s.chairsRemaining.filter id).length
      = 12 + s.player1ElectricCount + s.player2ElectricCount) ∧
  s.player1ElectricCount ≤ 3 ∧
  s.player2ElectricCount ≤ 3 ∧
  s.player1Score ≤ 51 ∧
  s.player2Score ≤ 51 ∧
  1 ≤ (s.chairsRemaining.filter id).length ∧
  s.currentTurn ≤ 15

/-! ### Spec-side status definitions (for claim C1)

Two renderings of the spec's status derivation over a decoded record, to
be compared with the source's `getGameStatusFromHash`: one with the
claim's exact `== 40` comparisons, one with `>= 40`. -/
/-- The spec's `r = popcount(chairs)` on a 12-bit mask. -/
def popcountChairs (chairs : Nat) : Nat :=
  (List.range 12).countP (fun i => chairs / 2 ^ i % 2 = 1)

/-- Modelled from the claim's wording (C1): the priority chain with exact
`scoreA == 40` / `scoreB == 40` comparisons. -/
def statusSpecExact (h : GameStateHash) : GameStatus :=
  if h.player1Electric = 3 then GameStatus.PLAYER2_WIN
  else if h.player2Electric = 3 then GameStatus.PLAYER1_WIN
  else if h.player1Score = 40 then GameStatus.PLAYER1_WIN
  else if h.player2Score = 40 then GameStatus.PLAYER2_WIN
  else
    let r := popcountChairs h.chairs
    if r = 1 ∨ 15 ≤ h.turn then
      if h.player2Score < h.player1Score then GameStatus.PLAYER1_WIN
      else if h.player1Score < h.player2Score then GameStatus.PLAYER2_WIN
      else GameStatus.DRAW
    else GameStatus.IN_PROGRESS

/-- The spec's priority chain with `scoreA >= 40` / `scoreB >= 40`
comparisons (the amended form of claim C1). -/
def statusSpecGE (h : GameStateHash) : GameStatus :=
  if h.player1Electric = 3 then GameStatus.PLAYER2_WIN
  else if h.player2Electric = 3 then GameStatus.PLAYER1_WIN
  else if 40 ≤ h.player1Score then GameStatus.PLAYER1_WIN
  else if 40 ≤ h.player2Score then GameStatus.PLAYER2_WIN
  else
    let r := popcountChairs h.chairs
    if r = 1 ∨ 15 ≤ h.turn then
      if h.player2Score < h.player1Score then GameStatus.PLAYER1_WIN
      else if h.player1Score < h.player2Score then GameStatus.PLAYER2_WIN
      else GameStatus.DRAW
    else GameStatus.IN_PROGRESS

/-! ### A concrete legal trajectory

Player 1 (chair selector on even turns) takes chairs 12, 11, 10 and then 9;
player 2 takes 1, 2, 3 on the odd turns.  After the seventh half-move
player 1's score is 42, which ends the game with `PLAYER1_WIN`. -/
def sT1 : GameState := (processTurn INITIAL_GAME_STATE 12 1).newGameState

def sT2 : GameState := (processTurn sT1 1 2).newGameState

def sT3 : GameState := (processTurn sT2 11 2).newGameState

def sT4 : GameState := (processTurn sT3 2 3).newGameState

def sT5 : GameState := (processTurn sT4 10 3).newGameState

def sT6 : GameState := (processTurn sT5 3 4).newGameState

def sT7 : GameState := (processTurn sT6 9 4).newGameState

/-- Score of a given player in a state. -/
def scoreOfPlayer (p : PlayerNumber) (s : GameState) : Nat :=
  match p with
  | PlayerNumber.PLAYER1 => s.player1Score
  | PlayerNumber.PLAYER2 => s.player2Score

/-- Shock count of a given player in a state. -/
def elecOfPlayer (p : PlayerNumber) (s : GameState) : Nat :=
  match p with
  | PlayerNumber.PLAYER1 => s.player1ElectricCount
  | PlayerNumber.PLAYER2 => s.player2ElectricCount

/-! ### Nash solver arithmetic (`NashEquilibriumSolver` in gameLogic.ts)

The LP shift and the strategy post-processing, over exact rationals. -/
/-- The solver's tolerance `EPSILON = 5e-8`. -/
def EPSILON : ℚ := 5 / 10 ^ 8

/-- `Math.min(...payoffMatrix.flat())` for a nonempty matrix.  (On an
empty flat list JavaScript's `Math.min()` yields `Infinity`; the solver
never reaches this code with an empty matrix, and the placeholder value 0
is unused by the theorems, which assume a nonempty matrix where needed.) -/
def minFlat (matrix : List (List ℚ)) : ℚ :=
  match matrix.flatten with
  | [] => 0
  | x :: xs => xs.foldl min x

/-- The elementwise shift `minValue < 0 ? Math.abs(minValue) + 1 : 0`,
computed identically in `solvePlayer1Strategy` and
`solvePlayer2Strategy`. -/
def computeShift (matrix : List (List ℚ)) : ℚ :=
  if minFlat matrix < 0 then |minFlat matrix| + 1 else 0

/-- Modelled from the claim's wording (C7): `shift = max(0, -min(matrix))`. -/
def claimShift (matrix : List (List ℚ)) : ℚ :=
  max 0 (-(minFlat matrix))

/-- Strategy post-processing shared by `solvePlayer1Strategy` and
`solvePlayer2Strategy`: clip each entry at 0 (`Math.max(0, value)`), sum
with `reduce((a, b) => a + b, 0)`, divide every entry by the sum when it
exceeds `EPSILON`, and otherwise fill with the uniform distribution
`1 / numRows`. -/
def normalizeStrategy (raw : List ℚ) : List ℚ :=
  let strategy := raw.map (fun v => max 0 v)
  let sum := strategy.foldl (· + ·) 0
  if EPSILON < sum then strategy.map (fun v => v / sum)
  else List.replicate raw.length (1 / (raw.length : ℚ))

/-! ### Analysis driver batch selection
(`AnalysisProgressManager.getNextBatch` in src/utils/analysisProgress.ts) -/
/-- The progress record (`progress.json`): the turns recorded as keys of
`totalStates`, and the two counters as total functions
(`analyzedStates[turn] || 0` makes the analyzed counter total). -/
structure AnalysisProgress where
  turns : List Nat
  totalStates : Nat → Nat
  analyzedStates : Nat → Nat

/-- Insertion into a descending-sorted list (one step of
`Object.keys(progress.totalStates).map(Number).sort((a, b) => b - a)`). -/
def insertDesc (x : Nat) : List Nat → List Nat
  | [] => [x]
  | y :: ys => if y < x then x :: y :: ys else y :: insertDesc x ys

/-- `sort((a, b) => b - a)`: descending sort. -/
def sortDesc (l : List Nat) : List Nat := l.foldr insertDesc []

/-- The scanning loop of `getNextBatch`: walk the descending turn list,
skip turns with `total === 0`, and return the first turn whose
`remaining = total - analyzed` is positive, together with
`min(remaining, requestedSize)`. -/
def findBatch (total analyzed : Nat → Nat) (requestedSize : Nat) :
    List Nat → Option (Nat × Nat)
  | [] => none
  | turn :: rest =>
    if total turn = 0 then findBatch total analyzed requestedSize rest
    else if analyzed turn < total turn then
      some (turn, min (total turn - analyzed turn) requestedSize)
    else findBatch total analyzed requestedSize rest

/-- `AnalysisProgressManager.getNextBatch`. -/
def getNextBatch (p : AnalysisProgress) (requestedSize : Nat) :
    Option (Nat × Nat) :=
  findBatch p.totalStates p.analyzedStates requestedSize (sortDesc p.turns)

/-- A concrete progress record used to witness C9. -/
def progressExample : AnalysisProgress :=
  { turns := [2, 5, 3]
    totalStates := fun t => t
    analyzedStates := fun _ => 0 }

/-! ### Heap model of `processTurn` (frame property, claim C10)

JavaScript objects hold their `chairsRemaining` array by reference, so
"`processTurn` does not modify its input" is a statement about the heap:
lines 38-41 of gameLogic.ts build the successor as an object-spread copy
of the input whose `chairsRemaining` is a freshly allocated copy
(`[...gameState.chairsRemaining]`), and every subsequent mutation hits
either a scalar field of the copy or the fresh array. -/
/-- A heap of boolean arrays, addressed by allocation index. -/
abbrev Heap := List (List Bool)

/-- Read the array behind a reference. -/
def heapGet (h : Heap) (r : Nat) : List Bool := h.getD r []

/-- Overwrite the array behind a reference. -/
def heapSet (h : Heap) (r : Nat) (v : List Bool) : Heap := h.set r v

/-- Allocate a new array, returning the extended heap and the fresh
reference. -/
def heapAlloc (h : Heap) (v : List Bool) : Heap × Nat := (h ++ [v], h.length)

/-- A `GameState` object whose `chairsRemaining` field is a heap
reference. -/
structure GameStateRef where
  currentTurn : Nat
  chairsRef : Nat
  player1Score : Nat
  player2Score : Nat
  player1ElectricCount : Nat
  player2ElectricCount : Nat
  gameStatus : GameStatus
  winner : Option PlayerNumber

/-- Read a reference state back into a value state. -/
def derefState (h : Heap) (s : GameStateRef) : GameState :=
  { currentTurn := s.currentTurn
    chairsRemaining := heapGet h s.chairsRef
    player1Score := s.player1Score
    player2Score := s.player2Score
    player1ElectricCount := s.player1ElectricCount
    player2ElectricCount := s.player2ElectricCount
    gameStatus := s.gameStatus
    winner := s.winner }

/-- `processTurn` with the heap explicit: the successor starts as an
object-spread copy of the input holding a freshly allocated copy of the
chairs array; the unmatched branch mutates the fresh array in place. -/
def processTurnRef (h : Heap) (s : GameStateRef)
    (attackerChoice defenderChoice : Nat) : Heap × GameStateRef :=
  let attacker := getCurrentAttacker s.currentTurn
  let alloc := heapAlloc h (heapGet h s.chairsRef)
  let h1 := alloc.1
  let r := alloc.2
  let ns0 : GameStateRef := { s with chairsRef := r }
  let branch : Heap × GameStateRef :=
    if attackerChoice == defenderChoice then
      if attacker = PlayerNumber.PLAYER1 then
        (h1, { ns0 with player1Score := 0,
                        player1ElectricCount := ns0.player1ElectricCount + 1 })
      else
        (h1, { ns0 with player2Score := 0,
                        player2ElectricCount := ns0.player2ElectricCount + 1 })
    else
      let h2 := heapSet h1 r ((heapGet h1 r).set (attackerChoice - 1) false)
      if attacker = PlayerNumber.PLAYER1 then
        (h2, { ns0 with player1Score := ns0.player1Score + attackerChoice })
      else
        (h2, { ns0 with player2Score := ns0.player2Score + attackerChoice })
  let hb := branch.1
  let ns1 := branch.2
  let status := checkGameEnd (derefState hb ns1)
  let ns2 := { ns1 with gameStatus := status }
  let ns3 := { ns2 with winner := getWinner (derefState hb ns2) }
  let ns4 := if ns3.gameStatus = GameStatus.IN_PROGRESS then
      { ns3 with currentTurn := ns3.currentTurn + 1 }
    else ns3
  (hb, ns4)

/-! ### Theorems -/

theorem processTurn_newGameState (s : GameState) (a b : Nat) :
    (processTurn s a b).newGameState =
      { stepCore s a b with
        gameStatus := checkGameEnd (stepCore s a b)
        winner := winnerOf (checkGameEnd (stepCore s a b))
        currentTurn := (stepCore s a b).currentTurn +
          (if checkGameEnd (stepCore s a b) = GameStatus.IN_PROGRESS then 1 else 0) } := by
  unfold processTurn stepCore getCurrentAttacker getWinner winnerOf
  by_cases hab : a = b <;> by_cases hpar : s.currentTurn % 2 = 0 <;>
    simp only [hab, hpar, beq_self_eq_true, beq_iff_eq, if_true, if_false,
      ite_true, ite_false, reduceIte] <;>
    split_ifs with hst <;> simp_all

/-! ### Basic lemmas about chairs and availability -/
theorem mem_getAvailableChairs {s : GameState} {c : Nat} :
    c ∈ getAvailableChairs s ↔
      1 ≤ c ∧ c - 1 < s.chairsRemaining.length ∧
        s.chairsRemaining.getD (c - 1) false = true := by
  unfold getAvailableChairs
  simp only [List.mem_filterMap, Prod.exists]
  constructor
  · rintro ⟨i, x, hmem, hif⟩
    rcases x with _ | _
    · simp at hif
    · simp only [if_true, Option.some.injEq] at hif
      rw [List.mk_mem_enum_iff_getElem?] at hmem
      rcases List.getElem?_eq_some_iff.mp hmem with ⟨hlt, hget⟩
      subst hif
      refine ⟨Nat.le_add_left 1 i, by simpa using hlt, ?_⟩
      simp only [Nat.add_sub_cancel]
      rw [List.getD_eq_getElem?_getD, List.getElem?_eq_getElem hlt, hget]
      rfl
  · rintro ⟨h1, hlt, hget⟩
    rw [List.getD_eq_getElem?_getD, List.getElem?_eq_getElem hlt] at hget
    simp only [Option.getD_some] at hget
    refine ⟨c - 1, true, ?_, by simp [Nat.sub_add_cancel h1]⟩
    rw [List.mk_mem_enum_iff_getElem?, List.getElem?_eq_getElem hlt]
    simp [hget]

theorem length_filter_set_false {l : List Bool} {i : Nat}
    (hlt : i < l.length) (ht : l.getD i false = true) :
    ((l.set i false).filter id).length + 1 = (l.filter id).length := by
  induction l generalizing i with
  | nil => simp at hlt
  | cons hd tl ih =>
    cases i with
    | zero =>
      simp only [List.getD_cons_zero] at ht
      simp [List.set, ht, List.filter]
    | succ j =>
      simp only [List.getD_cons_succ] at ht
      have hlt' : j < tl.length := by simpa using hlt
      have := ih hlt' ht
      cases hd <;> simp [List.set, List.filter, this]

theorem checkGameEnd_in_progress_facts {s : GameState}
    (h : checkGameEnd s = GameStatus.IN_PROGRESS) :
    s.player1ElectricCount ≠ 3 ∧ s.player2ElectricCount ≠ 3 ∧
    s.player1Score < 40 ∧ s.player2Score < 40 ∧
    (s.chairsRemaining.filter id).length ≠ 1 ∧ s.currentTurn < 15 := by
  unfold checkGameEnd MAX_SCORE MAX_ELECTRIC_COUNT MAX_TURNS at h
  split_ifs at h with h1 h2 h3 h4 h5 <;> simp_all

theorem checkGameEnd_eq_in_progress {s : GameState}
    (h1 : s.player1ElectricCount ≠ 3) (h2 : s.player2ElectricCount ≠ 3)
    (h3 : s.player1Score < 40) (h4 : s.player2Score < 40)
    (h5 : (s.chairsRemaining.filter id).length ≠ 1) (h6 : s.currentTurn < 15) :
    checkGameEnd s = GameStatus.IN_PROGRESS := by
  unfold checkGameEnd MAX_SCORE MAX_ELECTRIC_COUNT MAX_TURNS
  have hnot : ¬((s.chairsRemaining.filter id).length = 1 ∨ 16 - 1 ≤ s.currentTurn) := by
    push_neg
    exact ⟨h5, by omega⟩
  simp only [if_neg h1, if_neg h2,
    if_neg (show ¬(40 ≤ s.player1Score) by omega),
    if_neg (show ¬(40 ≤ s.player2Score) by omega), if_neg hnot]

/-- `checkGameEnd` never reads the `gameStatus`, `winner` or
`currentTurn`-independent fields beyond their literal values. -/
theorem checkGameEnd_status_winner_irrel (s : GameState) (g : GameStatus)
    (w : Option PlayerNumber) :
    checkGameEnd { s with gameStatus := g, winner := w } = checkGameEnd s := rfl

theorem Inv_initial : Inv INITIAL_GAME_STATE := by
  unfold Inv
  decide

theorem checkGameEnd_fields (s t : GameState)
    (h1 : s.currentTurn = t.currentTurn) (h2 : s.chairsRemaining = t.chairsRemaining)
    (h3 : s.player1Score = t.player1Score) (h4 : s.player2Score = t.player2Score)
    (h5 : s.player1ElectricCount = t.player1ElectricCount)
    (h6 : s.player2ElectricCount = t.player2ElectricCount) :
    checkGameEnd s = checkGameEnd t := by
  unfold checkGameEnd
  rw [h1, h2, h3, h4, h5, h6]

/-- Finishing a turn preserves the invariant: once the branch updates have
produced an intermediate state `s1` whose fields satisfy the listed
bounds, attaching the freshly computed status/winner and conditionally
advancing the turn yields an invariant state. -/
theorem Inv_finalize (s1 : GameState)
    (hlen : s1.chairsRemaining.length = 12)
    (he1 : s1.player1ElectricCount ≤ 3)
    (he2 : s1.player2ElectricCount ≤ 3)
    (hs1 : s1.player1Score ≤ 51)
    (hs2 : s1.player2Score ≤ 51)
    (hcnt : 1 ≤ (s1.chairsRemaining.filter id).length)
    (htle : s1.currentTurn ≤ 14)
    (heq1 : s1.currentTurn + 1 + (s1.chairsRemaining.filter id).length
        = 12 + s1.player1ElectricCount + s1.player2ElectricCount) :
    Inv { s1 with
      gameStatus := checkGameEnd s1
      winner := winnerOf (checkGameEnd s1)
      currentTurn := s1.currentTurn +
        (if checkGameEnd s1 = GameStatus.IN_PROGRESS then 1 else 0) } := by
  by_cases hst : checkGameEnd s1 = GameStatus.IN_PROGRESS
  · obtain ⟨g1, g2, g3, g4, g5, g6⟩ := checkGameEnd_in_progress_facts hst
    rw [if_pos hst]
    have hderived : checkGameEnd { s1 with
        gameStatus := checkGameEnd s1
        winner := winnerOf (checkGameEnd s1)
        currentTurn := s1.currentTurn + 1 } = GameStatus.IN_PROGRESS := by
      apply checkGameEnd_eq_in_progress
      · exact g1
      · exact g2
      · exact g3
      · exact g4
      · exact g5
      · show s1.currentTurn + 1 < 15
        omega
    refine ⟨hlen, hst.trans hderived.symm, fun _ => ?_, he1, he2, hs1, hs2, hcnt, ?_⟩
    · show s1.currentTurn + 1 + (s1.chairsRemaining.filter id).length
        = 12 + s1.player1ElectricCount + s1.player2ElectricCount
      omega
    · show s1.currentTurn + 1 ≤ 15
      omega
  · rw [if_neg hst]
    have hsame : checkGameEnd { s1 with
        gameStatus := checkGameEnd s1
        winner := winnerOf (checkGameEnd s1)
        currentTurn := s1.currentTurn + 0 } = checkGameEnd s1 := by
      apply checkGameEnd_fields <;> rfl
    refine ⟨hlen, hsame.symm, fun h => absurd h hst, he1, he2, hs1, hs2, hcnt, ?_⟩
    show s1.currentTurn + 0 ≤ 15
    omega

/-- One legal step from an invariant in-progress state yields an invariant
state. -/
theorem Inv_step {s : GameState} {a b : Nat} (hI : Inv s)
    (hip : s.gameStatus = GameStatus.IN_PROGRESS)
    (ha : a ∈ getAvailableChairs s) (hb : b ∈ getAvailableChairs s) :
    Inv (processTurn s a b).newGameState := by
  obtain ⟨hlen, hsd, hturn, he1, he2, hs1, hs2, hcnt, htle⟩ := hI
  have hcge : checkGameEnd s = GameStatus.IN_PROGRESS := hsd.symm.trans hip
  obtain ⟨f1, f2, f3, f4, f5, f6⟩ := checkGameEnd_in_progress_facts hcge
  have hteq := hturn hip
  obtain ⟨ha1, ha2, ha3⟩ := mem_getAvailableChairs.mp ha
  have hale : a ≤ 12 := by omega
  have hcnt2 : 2 ≤ (s.chairsRemaining.filter id).length := by omega
  have hset := length_filter_set_false ha2 ha3
  rw [processTurn_newGameState]
  unfold stepCore
  by_cases hab : a = b <;> by_cases hpar : s.currentTurn % 2 = 0 <;>
    simp only [hab, hpar, if_true, if_false, ite_true, ite_false, reduceIte]
  · apply Inv_finalize ({ s with
        player1Score := 0
        player1ElectricCount := s.player1ElectricCount + 1 }) <;>
      simp [List.length_set, hlen] <;> omega
  · apply Inv_finalize ({ s with
        player2Score := 0
        player2ElectricCount := s.player2ElectricCount + 1 }) <;>
      simp [List.length_set, hlen] <;> omega
  · apply Inv_finalize ({ s with
        chairsRemaining := s.chairsRemaining.set (a - 1) false
        player1Score := s.player1Score + a }) <;>
      simp [List.length_set, hlen] <;> omega
  · apply Inv_finalize ({ s with
        chairsRemaining := s.chairsRemaining.set (a - 1) false
        player2Score := s.player2Score + a }) <;>
      simp [List.length_set, hlen] <;> omega

theorem Reachable_Inv {s : GameState} (h : Reachable s) : Inv s := by
  induction h with
  | init => exact Inv_initial
  | step _ hip ha hb ih => exact Inv_step ih hip ha hb

/-! ### Codec round-trip lemmas -/
theorem chairsToBits_lt (l : List Bool) : chairsToBits l < 2 ^ l.length := by
  induction l with
  | nil => simp [chairsToBits]
  | cons b t ih =>
    simp only [chairsToBits, List.length_cons, pow_succ]
    cases b <;> simp <;> omega

theorem bitsToChairs_chairsToBits (l : List Bool) :
    bitsToChairs (chairsToBits l) l.length = l := by
  induction l with
  | nil => rfl
  | cons b t ih =>
    cases b
    · have h1 : (0 + 2 * chairsToBits t) % 2 = 0 := by omega
      have h2 : (0 + 2 * chairsToBits t) / 2 = chairsToBits t := by omega
      simp [chairsToBits, bitsToChairs, h1, h2, ih]
    · have h1 : (1 + 2 * chairsToBits t) % 2 = 1 := by omega
      have h2 : (1 + 2 * chairsToBits t) / 2 = chairsToBits t := by omega
      simp [chairsToBits, bitsToChairs, h1, h2, ih]

theorem mod_two_pow_succ (c n : Nat) :
    c % 2 ^ (n + 1) = c % 2 + 2 * (c / 2 % 2 ^ n) := by
  have hM : 0 < 2 ^ n := Nat.pos_pow_of_pos n (by omega)
  have hq : c / 2 % 2 ^ n < 2 ^ n := Nat.mod_lt _ hM
  have hr : c % 2 < 2 := Nat.mod_lt _ (by omega)
  have h1 : 2 ^ (n + 1) = 2 * 2 ^ n := by rw [pow_succ]; ring
  have h2 : 2 * (c / 2) % (2 * 2 ^ n) = 2 * (c / 2 % 2 ^ n) :=
    Nat.mul_mod_mul_left 2 _ _
  calc c % 2 ^ (n + 1)
      = (2 * (c / 2) + c % 2) % (2 * 2 ^ n) := by rw [Nat.div_add_mod, h1]
    _ = (2 * (c / 2) % (2 * 2 ^ n) + c % 2 % (2 * 2 ^ n)) % (2 * 2 ^ n) := by
        rw [Nat.add_mod]
    _ = (2 * (c / 2 % 2 ^ n) + c % 2) % (2 * 2 ^ n) := by
        rw [h2, Nat.mod_eq_of_lt (show c % 2 < 2 * 2 ^ n by omega)]
    _ = 2 * (c / 2 % 2 ^ n) + c % 2 := Nat.mod_eq_of_lt (by omega)
    _ = c % 2 + 2 * (c / 2 % 2 ^ n) := by omega

theorem chairsToBits_bitsToChairs (c n : Nat) :
    chairsToBits (bitsToChairs c n) = c % 2 ^ n := by
  induction n generalizing c with
  | zero => simp [bitsToChairs, chairsToBits, Nat.mod_one]
  | succ n ih =>
    have hbit : c % 2 = 0 ∨ c % 2 = 1 := by omega
    rw [mod_two_pow_succ]
    rcases hbit with hb | hb <;>
      simp [bitsToChairs, chairsToBits, hb, ih]

theorem decode_encode_fields (s : GameState)
    (ht : s.currentTurn < 16) (hp1 : s.player1Score < 64)
    (hp2 : s.player2Score < 64) (he1 : s.player1ElectricCount < 4)
    (he2 : s.player2ElectricCount < 4) (hlen : s.chairsRemaining.length = 12) :
    decodeGameStateHash (encodeGameStateHash s) =
      { turn := s.currentTurn
        chairs := chairsToBits s.chairsRemaining
        player1Score := s.player1Score
        player2Score := s.player2Score
        player1Electric := s.player1ElectricCount
        player2Electric := s.player2ElectricCount } := by
  have hc : chairsToBits s.chairsRemaining < 4096 := by
    have h := chairsToBits_lt s.chairsRemaining
    rw [hlen] at h
    exact lt_of_lt_of_le h (by norm_num)
  unfold encodeGameStateHash decodeGameStateHash
  simp only [GameStateHash.mk.injEq]
  refine ⟨?_, ?_, ?_, ?_, ?_, ?_⟩ <;> omega

theorem getGameStatusFromHash_eq_checkGameEnd (s : GameState)
    (hlen : s.chairsRemaining.length = 12) :
    getGameStatusFromHash
      { turn := s.currentTurn
        chairs := chairsToBits s.chairsRemaining
        player1Score := s.player1Score
        player2Score := s.player2Score
        player1Electric := s.player1ElectricCount
        player2Electric := s.player2ElectricCount }
      = checkGameEnd s := by
  have h := bitsToChairs_chairsToBits s.chairsRemaining
  rw [hlen] at h
  unfold getGameStatusFromHash checkGameEnd
  simp only [h]

theorem decode_encode_reachable {s : GameState} (h : Reachable s) :
    hashToGameState (encodeGameStateHash s) = { s with winner := none } := by
  obtain ⟨hlen, hsd, _, he1, he2, hs1, hs2, _, htle⟩ := Reachable_Inv h
  have hb := bitsToChairs_chairsToBits s.chairsRemaining
  rw [hlen] at hb
  unfold hashToGameState
  rw [decode_encode_fields s (by omega) (by omega) (by omega) (by omega)
    (by omega) hlen]
  simp [hb, getGameStatusFromHash_eq_checkGameEnd s hlen, ← hsd]

theorem encode_decode (x : Nat) (hx : x < 2 ^ 32) :
    encodeGameStateHash (hashToGameState x) = x := by
  unfold hashToGameState decodeGameStateHash encodeGameStateHash
  simp only [chairsToBits_bitsToChairs]
  omega

theorem popcountChairs_eq_filter_length (c : Nat) :
    popcountChairs c = ((bitsToChairs c 12).filter id).length := by
  unfold popcountChairs
  have hgen : ∀ (n : Nat) (c : Nat),
      (List.range n).countP (fun i => decide (c / 2 ^ i % 2 = 1))
        = ((bitsToChairs c n).filter id).length := by
    intro n
    induction n with
    | zero => intro c; rfl
    | succ n ih =>
      intro c
      rw [List.range_succ_eq_map, List.countP_cons, List.countP_map]
      have hdiv : ∀ i : Nat, c / 2 ^ (i + 1) = c / 2 / 2 ^ i := by
        intro i
        rw [Nat.div_div_eq_div_mul, pow_succ']
      have hcomp :
          ((fun i => decide (c / 2 ^ i % 2 = 1)) ∘ (· + 1))
            = fun i => decide (c / 2 / 2 ^ i % 2 = 1) := by
        funext i
        simp [Function.comp, hdiv i]
      rw [hcomp, ih (c / 2)]
      by_cases hc : c % 2 = 1 <;>
        simp [bitsToChairs, List.filter, hc, Nat.add_comm]
  exact hgen 12 c

theorem sT7_reachable : Reachable sT7 := by
  have h0 : Reachable INITIAL_GAME_STATE := Reachable.init
  have h1 : Reachable sT1 := Reachable.step h0 (by decide) (by decide) (by decide)
  have h2 : Reachable sT2 := Reachable.step h1 (by decide) (by decide) (by decide)
  have h3 : Reachable sT3 := Reachable.step h2 (by decide) (by decide) (by decide)
  have h4 : Reachable sT4 := Reachable.step h3 (by decide) (by decide) (by decide)
  have h5 : Reachable sT5 := Reachable.step h4 (by decide) (by decide) (by decide)
  have h6 : Reachable sT6 := Reachable.step h5 (by decide) (by decide) (by decide)
  exact Reachable.step h6 (by decide) (by decide) (by decide)

theorem processTurn_matched (s : GameState) (a b : Nat) :
    (processTurn s a b).matched = (a == b) := rfl

theorem processTurn_chairRemoved (s : GameState) (a b : Nat) :
    (processTurn s a b).chairRemoved = if a == b then none else some a := by
  unfold processTurn getCurrentAttacker getCurrentDefender
  rcases Bool.eq_false_or_eq_true (a == b) with hab | hab <;>
    by_cases hpar : s.currentTurn % 2 = 0 <;>
    simp [hab, hpar]

theorem stepCore_currentTurn (s : GameState) (a b : Nat) :
    (stepCore s a b).currentTurn = s.currentTurn := by
  unfold stepCore
  split_ifs <;> rfl

/-! ### Claim theorems -/
theorem getGameStatusFromHash_eq_statusSpecGE (h : GameStateHash) :
    getGameStatusFromHash h = statusSpecGE h := by
  unfold getGameStatusFromHash statusSpecGE MAX_SCORE MAX_ELECTRIC_COUNT MAX_TURNS
  rw [popcountChairs_eq_filter_length]

/-- C1 (amended): for every 32-bit encoded state, the status function
follows the spec's priority order where the score comparisons are
`scoreA >= 40` / `scoreB >= 40` (not exact equality): shocks first, then
scores, then the one-chair / turn-limit score comparison, else
in-progress. -/
theorem C1_status_priority (x : Nat) (hx : x < 2 ^ 32) :
    getGameStatusFromHash (decodeGameStateHash x)
      = statusSpecGE (decodeGameStateHash x) :=
  getGameStatusFromHash_eq_statusSpecGE (decodeGameStateHash x)

theorem C1_status_priority_witness :
    (268411904 : Nat) < 2 ^ 32 ∧
    getGameStatusFromHash (decodeGameStateHash 268411904)
      = statusSpecGE (decodeGameStateHash 268411904) :=
  ⟨by norm_num, C1_status_priority 268411904 (by norm_num)⟩

/-- C1 counterexample: the encoded state with turn 0, all 12 chairs and
`scoreA = 41` (hash `0x0FFF0000 + 41·2^10 = 268411904`).  The source's
status function, which compares with `>= 40`, answers `PLAYER1_WIN`,
while the claim's exact `== 40` priority chain would answer
`IN_PROGRESS`. -/
theorem C1_counterexample :
    (decodeGameStateHash 268411904).player1Score = 41 ∧
    getGameStatusFromHash (decodeGameStateHash 268411904)
      = GameStatus.PLAYER1_WIN ∧
    statusSpecExact (decodeGameStateHash 268411904) = GameStatus.IN_PROGRESS ∧
    getGameStatusFromHash (decodeGameStateHash 268411904)
      ≠ statusSpecExact (decodeGameStateHash 268411904) := by
  decide

/-- C4 (amended): every state reachable from the initial state by legal
steps has both scores at most 51 (an in-progress state has scores below
40, and a single gain adds at most the top chair value 12). -/
theorem C4_scores_bounded (s : GameState) (h : Reachable s) :
    s.player1Score ≤ 51 ∧ s.player2Score ≤ 51 := by
  obtain ⟨_, _, _, _, _, hs1, hs2, _, _⟩ := Reachable_Inv h
  exact ⟨hs1, hs2⟩

theorem C4_scores_bounded_witness :
    INITIAL_GAME_STATE.player1Score ≤ 51 ∧
    INITIAL_GAME_STATE.player2Score ≤ 51 :=
  C4_scores_bounded INITIAL_GAME_STATE Reachable.init

/-- C4 counterexample: the reachable terminal state `sT7` (reached by the
seven legal half-moves listed above) has `player1Score = 42 > 40`, so
scores strictly greater than 40 are reachable. -/
theorem C4_counterexample :
    Reachable sT7 ∧ sT7.player1Score = 42 ∧ 40 < sT7.player1Score :=
  ⟨sT7_reachable, by decide, by decide⟩

/-- C5: for an in-progress state and legal choices, the successor's turn
field is the predecessor's turn plus one exactly when the successor's
status is in-progress, and is unchanged when the successor is terminal. -/
theorem C5_turn_monotone (s : GameState) (a b : Nat)
    (hip : s.gameStatus = GameStatus.IN_PROGRESS)
    (ha : a ∈ getAvailableChairs s) (hb : b ∈ getAvailableChairs s) :
    ((processTurn s a b).newGameState.gameStatus = GameStatus.IN_PROGRESS →
      (processTurn s a b).newGameState.currentTurn = s.currentTurn + 1) ∧
    ((processTurn s a b).newGameState.gameStatus ≠ GameStatus.IN_PROGRESS →
      (processTurn s a b).newGameState.currentTurn = s.currentTurn) := by
  rw [processTurn_newGameState]
  have hc : (stepCore s a b).currentTurn = s.currentTurn := stepCore_currentTurn s a b
  constructor
  · intro h
    have hst : checkGameEnd (stepCore s a b) = GameStatus.IN_PROGRESS := h
    show (stepCore s a b).currentTurn +
      (if checkGameEnd (stepCore s a b) = GameStatus.IN_PROGRESS then 1 else 0)
        = s.currentTurn + 1
    rw [if_pos hst, hc]
  · intro h
    have hst : ¬(checkGameEnd (stepCore s a b) = GameStatus.IN_PROGRESS) := h
    show (stepCore s a b).currentTurn +
      (if checkGameEnd (stepCore s a b) = GameStatus.IN_PROGRESS then 1 else 0)
        = s.currentTurn
    rw [if_neg hst, hc]
    rfl

theorem C5_turn_monotone_witness :
    (processTurn INITIAL_GAME_STATE 1 2).newGameState.gameStatus
        = GameStatus.IN_PROGRESS ∧
    (processTurn INITIAL_GAME_STATE 1 2).newGameState.currentTurn
        = INITIAL_GAME_STATE.currentTurn + 1 :=
  ⟨by decide,
    (C5_turn_monotone INITIAL_GAME_STATE 1 2 rfl (by decide) (by decide)).1
      (by decide)⟩

/-- C6 (amended): `processTurn` performs no precondition validation and
never signals an error: its result is entirely independent of the input's
`gameStatus` and `winner` fields, so invoked on a terminal state (or with
an absent chair) it silently computes a successor just as it would on an
in-progress state. -/
theorem C6_no_validation (s : GameState) (a b : Nat) (g : GameStatus)
    (w : Option PlayerNumber) :
    processTurn { s with gameStatus := g, winner := w } a b
      = processTurn s a b := by
  unfold processTurn getCurrentAttacker getCurrentDefender
  rcases Bool.eq_false_or_eq_true (a == b) with hab | hab <;>
    by_cases hpar : s.currentTurn % 2 = 0 <;>
    (simp [hab, hpar]; try rfl)

/-- C6 counterexample: `sT7` is a terminal state (`PLAYER1_WIN`) and chair
2 has already been removed there, yet `processTurn sT7 2 3` raises no
error: it returns an ordinary result, adding the absent chair's value to
player 1's score. -/
theorem C6_counterexample :
    sT7.gameStatus = GameStatus.PLAYER1_WIN ∧
    2 ∉ getAvailableChairs sT7 ∧
    (processTurn sT7 2 3).newGameState.player1Score = 44 ∧
    (processTurn sT7 2 3).newGameState.gameStatus = GameStatus.PLAYER1_WIN := by
  decide

theorem notMem_available_after_set {s : GameState} {a : Nat}
    (hlt : a - 1 < s.chairsRemaining.length) :
    a ∉ getAvailableChairs { s with
      chairsRemaining := s.chairsRemaining.set (a - 1) false } := by
  intro hmem
  obtain ⟨h1, h2, h3⟩ := mem_getAvailableChairs.mp hmem
  rw [List.getD_eq_getElem?_getD] at h3
  have := List.getElem?_set_eq_of_lt false (l := s.chairsRemaining)
    (n := a - 1) hlt
  simp only [this] at h3
  simp at h3

/-- C2: on an in-progress state with both chosen chairs available,
`processTurn` resets the selector's score to 0, bumps their shock counter
and removes no chair when the choices match; otherwise it adds the chosen
chair's face value to the selector's score, removes that chair, and leaves
the setter's score and shock count untouched.  The `matched` flag records
which branch applied. -/
theorem C2_branch_behavior (s : GameState) (a b : Nat)
    (hip : s.gameStatus = GameStatus.IN_PROGRESS)
    (ha : a ∈ getAvailableChairs s) (hb : b ∈ getAvailableChairs s) :
    ((processTurn s a b).matched = true ↔ a = b) ∧
    (a = b →
      scoreOfPlayer (getChairSelector s.currentTurn)
          (processTurn s a b).newGameState = 0 ∧
      elecOfPlayer (getChairSelector s.currentTurn)
          (processTurn s a b).newGameState
        = elecOfPlayer (getChairSelector s.currentTurn) s + 1 ∧
      (processTurn s a b).newGameState.chairsRemaining = s.chairsRemaining ∧
      (processTurn s a b).chairRemoved = none) ∧
    (a ≠ b →
      scoreOfPlayer (getChairSelector s.currentTurn)
          (processTurn s a b).newGameState
        = scoreOfPlayer (getChairSelector s.currentTurn) s + a ∧
      (processTurn s a b).newGameState.chairsRemaining
        = s.chairsRemaining.set (a - 1) false ∧
      a ∉ getAvailableChairs (processTurn s a b).newGameState ∧
      (processTurn s a b).chairRemoved = some a ∧
      scoreOfPlayer (getElectricSetter s.currentTurn)
          (processTurn s a b).newGameState
        = scoreOfPlayer (getElectricSetter s.currentTurn) s ∧
      elecOfPlayer (getElectricSetter s.currentTurn)
          (processTurn s a b).newGameState
        = elecOfPlayer (getElectricSetter s.currentTurn) s) := by
  obtain ⟨ha1, ha2, ha3⟩ := mem_getAvailableChairs.mp ha
  refine ⟨by rw [processTurn_matched]; exact beq_iff_eq, fun hab => ?_, fun hab => ?_⟩
  · rw [processTurn_newGameState, processTurn_chairRemoved]
    unfold stepCore getChairSelector getCurrentAttacker
      scoreOfPlayer elecOfPlayer
    by_cases hpar : s.currentTurn % 2 = 0 <;>
      simp [hab, hpar]
  · have hnot : a ∉ getAvailableChairs { s with
        chairsRemaining := s.chairsRemaining.set (a - 1) false } :=
      notMem_available_after_set ha2
    rw [processTurn_newGameState, processTurn_chairRemoved]
    unfold stepCore getChairSelector getElectricSetter getCurrentAttacker
      getCurrentDefender scoreOfPlayer elecOfPlayer
    by_cases hpar : s.currentTurn % 2 = 0 <;>
      simp only [hab, hpar, if_true, if_false, ite_true, ite_false, reduceIte,
        beq_iff_eq] <;>
      refine ⟨?_, ?_, ?_, ?_, ?_, ?_⟩ <;>
      first
        | rfl
        | trivial
        | simp [hab]
        | (intro hmem
           apply hnot
           unfold getAvailableChairs at hmem ⊢
           simpa using hmem)

theorem encode_top_bits {s : GameState} (h : Reachable s) :
    encodeGameStateHash s / 2 ^ 28 = s.currentTurn := by
  obtain ⟨hlen, _, _, he1, he2, hs1, hs2, _, htle⟩ := Reachable_Inv h
  have hc : chairsToBits s.chairsRemaining < 4096 := by
    have hl := chairsToBits_lt s.chairsRemaining
    rw [hlen] at hl
    exact lt_of_lt_of_le hl (by norm_num)
  simp only [encodeGameStateHash]
  omega

/-- C3 (amended): the codec round-trips on every reachable state except
for the `winner` field, which `hashToGameState` always leaves unset:
`decode (encode s) = s` with `winner` erased, the top 4 bits of the
encoding are the turn, and `encode (decode x) = x` for every 32-bit
value. -/
theorem C3_codec_roundtrip :
    (∀ s : GameState, Reachable s →
      hashToGameState (encodeGameStateHash s) = { s with winner := none } ∧
      encodeGameStateHash s / 2 ^ 28 = s.currentTurn) ∧
    (∀ x : Nat, x < 2 ^ 32 → encodeGameStateHash (hashToGameState x) = x) :=
  ⟨fun _ h => ⟨decode_encode_reachable h, encode_top_bits h⟩,
   fun x hx => encode_decode x hx⟩

theorem C3_codec_roundtrip_witness :
    hashToGameState (encodeGameStateHash INITIAL_GAME_STATE)
        = { INITIAL_GAME_STATE with winner := none } ∧
    encodeGameStateHash (hashToGameState 268369920) = 268369920 :=
  ⟨(C3_codec_roundtrip.1 INITIAL_GAME_STATE Reachable.init).1,
   C3_codec_roundtrip.2 268369920 (by norm_num)⟩

/-- C3 counterexample: the reachable terminal state `sT7` carries
`winner = some PLAYER1` (set by `processTurn`), but `hashToGameState`
always returns `winner = none`, so `decode (encode sT7) ≠ sT7`: the
round-trip fails on the `winner` field (all other fields round-trip). -/
theorem C3_counterexample :
    Reachable sT7 ∧ sT7.winner = some PlayerNumber.PLAYER1 ∧
    (hashToGameState (encodeGameStateHash sT7)).winner = none ∧
    hashToGameState (encodeGameStateHash sT7) ≠ sT7 :=
  ⟨sT7_reachable, by decide, by decide, by decide⟩

/-- C7 (amended): the shift applied in both LP subproblems is
`max(0, -min(matrix))` plus an extra `+1` whenever the minimum entry is
negative — it is 0 when the minimum is non-negative and `-min + 1` (not
`-min`) otherwise. -/
theorem C7_shift (m : List (List ℚ)) :
    computeShift m = claimShift m + (if minFlat m < 0 then 1 else 0) := by
  unfold computeShift claimShift
  by_cases h : minFlat m < 0
  · rw [if_pos h, if_pos h, abs_of_neg h, max_eq_right (by linarith)]
  · rw [if_neg h, if_neg h, max_eq_left (by linarith), add_zero]

/-- C7 counterexample: on the 1×1 matrix `[[-1]]` the code computes
`shift = |-1| + 1 = 2`, while the claim's `max(0, -min)` is 1. -/
theorem C7_counterexample :
    computeShift [[-1]] = 2 ∧ claimShift [[-1]] = 1 ∧
    computeShift [[-1]] ≠ claimShift [[-1]] := by
  refine ⟨?_, ?_, ?_⟩ <;> norm_num [computeShift, claimShift, minFlat]

/-- C8 (amended): after clipping, the strategy vector is divided by its
entry sum (and then sums to 1) exactly when that sum exceeds the solver's
`EPSILON = 5e-8`; the fallback to the uniform distribution is taken when
the sum is at most `5e-8` — not the claimed `1e-8`. -/
theorem C8_renormalize (raw : List ℚ) (hne : raw ≠ []) :
    ((raw.map (fun v => max 0 v)).foldl (· + ·) 0 ≤ EPSILON →
      normalizeStrategy raw
        = List.replicate raw.length (1 / (raw.length : ℚ))) ∧
    (EPSILON < (raw.map (fun v => max 0 v)).foldl (· + ·) 0 →
      normalizeStrategy raw
        = (raw.map (fun v => max 0 v)).map
            (fun v => v / (raw.map (fun v => max 0 v)).foldl (· + ·) 0) ∧
      (normalizeStrategy raw).sum = 1) := by
  constructor
  · intro hle
    simp only [normalizeStrategy]
    rw [if_neg (not_lt.mpr hle)]
  · intro hlt
    have hpos : 0 < (raw.map (fun v => max 0 v)).foldl (· + ·) 0 :=
      lt_trans (by norm_num [EPSILON]) hlt
    simp only [normalizeStrategy]
    rw [if_pos hlt]
    refine ⟨rfl, ?_⟩
    have h1 : ((raw.map (fun v => max 0 v)).map
        (fun v => v / (raw.map (fun v => max 0 v)).foldl (· + ·) 0)).sum
        = (raw.map (fun v => max 0 v)).sum
          * ((raw.map (fun v => max 0 v)).foldl (· + ·) 0)⁻¹ := by
      simp only [div_eq_mul_inv]
      simpa using
        List.sum_map_mul_right (raw.map (fun v => max 0 v)) id
          ((raw.map (fun v => max 0 v)).foldl (· + ·) 0)⁻¹
    rw [h1, List.sum_eq_foldl]
    exact mul_inv_cancel₀ (ne_of_gt hpos)

theorem C8_renormalize_witness :
    normalizeStrategy [(1 : ℚ), 0]
      = (([(1 : ℚ), 0]).map (fun v => max 0 v)).map
          (fun v => v / (([(1 : ℚ), 0]).map (fun v => max 0 v)).foldl (· + ·) 0) ∧
    (normalizeStrategy [(1 : ℚ), 0]).sum = 1 :=
  (C8_renormalize [(1 : ℚ), 0] (by decide)).2 (by norm_num [EPSILON])

/-- C8 counterexample: for the clipped vector `[3e-8, 0]` the
renormalisation denominator `3e-8` is NOT below the claimed `1e-8`, yet
the code takes the uniform fallback (because `3e-8 ≤ EPSILON = 5e-8`),
returning `[1/2, 1/2]` instead of the normalised `[1, 0]`. -/
theorem C8_counterexample :
    ¬((3 : ℚ) / 10 ^ 8 < 1 / 10 ^ 8) ∧
    (([(3 : ℚ) / 10 ^ 8, 0]).map (fun v => max 0 v)).foldl (· + ·) 0
        = 3 / 10 ^ 8 ∧
    normalizeStrategy [(3 : ℚ) / 10 ^ 8, 0] = [1 / 2, 1 / 2] ∧
    normalizeStrategy [(3 : ℚ) / 10 ^ 8, 0] ≠ [1, 0] := by
  refine ⟨by norm_num, by norm_num, ?_, ?_⟩ <;>
    norm_num [normalizeStrategy, EPSILON, List.replicate]

theorem mem_insertDesc {x y : Nat} {l : List Nat} :
    y ∈ insertDesc x l ↔ y = x ∨ y ∈ l := by
  induction l with
  | nil => simp [insertDesc]
  | cons h t ih =>
    unfold insertDesc
    split_ifs <;> simp [ih] <;> tauto

theorem mem_sortDesc {y : Nat} {l : List Nat} : y ∈ sortDesc l ↔ y ∈ l := by
  induction l with
  | nil => simp [sortDesc]
  | cons h t ih =>
    simp only [sortDesc, List.foldr] at ih ⊢
    rw [mem_insertDesc, ih, List.mem_cons]

theorem pairwise_insertDesc {x : Nat} {l : List Nat}
    (h : l.Pairwise (fun a b => b ≤ a)) :
    (insertDesc x l).Pairwise (fun a b => b ≤ a) := by
  induction l with
  | nil => simp [insertDesc]
  | cons hd tl ih =>
    rw [List.pairwise_cons] at h
    unfold insertDesc
    split_ifs with hlt
    · rw [List.pairwise_cons]
      refine ⟨?_, List.pairwise_cons.mpr h⟩
      intro z hz
      rcases List.mem_cons.mp hz with rfl | hz
      · omega
      · have := h.1 z hz
        omega
    · rw [List.pairwise_cons]
      refine ⟨?_, ih h.2⟩
      intro z hz
      rcases mem_insertDesc.mp hz with rfl | hz
      · omega
      · exact h.1 z hz

theorem pairwise_sortDesc (l : List Nat) :
    (sortDesc l).Pairwise (fun a b => b ≤ a) := by
  induction l with
  | nil => simp [sortDesc]
  | cons h t ih => exact pairwise_insertDesc ih

theorem findBatch_none_iff (total analyzed : Nat → Nat) (r : Nat)
    (L : List Nat) :
    findBatch total analyzed r L = none ↔
      ∀ t ∈ L, total t = 0 ∨ total t ≤ analyzed t := by
  induction L with
  | nil => simp [findBatch]
  | cons hd tl ih =>
    unfold findBatch
    split_ifs with h1 h2
    · rw [ih]
      constructor
      · intro h t ht
        rcases List.mem_cons.mp ht with rfl | ht
        · exact Or.inl h1
        · exact h t ht
      · intro h t ht
        exact h t (List.mem_cons_of_mem hd ht)
    · constructor
      · intro h
        exact absurd h (by simp)
      · intro h
        rcases h hd (List.mem_cons_self hd tl) with hc | hc
        · exact absurd hc h1
        · omega
    · rw [ih]
      constructor
      · intro h t ht
        rcases List.mem_cons.mp ht with rfl | ht
        · exact Or.inr (by omega)
        · exact h t ht
      · intro h t ht
        exact h t (List.mem_cons_of_mem hd ht)

theorem findBatch_some (total analyzed : Nat → Nat) (r : Nat)
    (L : List Nat) (turn c : Nat)
    (hpw : L.Pairwise (fun a b => b ≤ a))
    (h : findBatch total analyzed r L = some (turn, c)) :
    turn ∈ L ∧ total turn ≠ 0 ∧ analyzed turn < total turn ∧
    c = min (total turn - analyzed turn) r ∧
    ∀ t ∈ L, total t ≠ 0 → analyzed t < total t → t ≤ turn := by
  induction L with
  | nil => simp [findBatch] at h
  | cons hd tl ih =>
    rw [List.pairwise_cons] at hpw
    unfold findBatch at h
    split_ifs at h with h1 h2
    · obtain ⟨hmem, hne, hlt, hc, hmax⟩ := ih hpw.2 h
      refine ⟨List.mem_cons_of_mem hd hmem, hne, hlt, hc, ?_⟩
      intro t ht htn hta
      rcases List.mem_cons.mp ht with rfl | ht
      · exact absurd h1 htn
      · exact hmax t ht htn hta
    · rw [Option.some.injEq, Prod.mk.injEq] at h
      obtain ⟨rfl, rfl⟩ := h
      refine ⟨List.mem_cons_self hd tl, h1, h2, rfl, ?_⟩
      intro t ht _ _
      rcases List.mem_cons.mp ht with rfl | ht
      · exact Nat.le_refl t
      · exact hpw.1 t ht
    · obtain ⟨hmem, hne, hlt, hc, hmax⟩ := ih hpw.2 h
      refine ⟨List.mem_cons_of_mem hd hmem, hne, hlt, hc, ?_⟩
      intro t ht htn hta
      rcases List.mem_cons.mp ht with rfl | ht
      · omega
      · exact hmax t ht htn hta

/-- C9: `getNextBatch` returns the largest turn (among turns with nonzero
total state count) whose analyzed count is below its total, with batch
size `min(remaining, requestedSize)`, and returns `none` exactly when
every such turn is fully analyzed — so no state at a turn is handed out
while a larger turn still has unanalyzed states. -/
theorem C9_getNextBatch (p : AnalysisProgress) (r : Nat) :
    (getNextBatch p r = none ↔
      ∀ t ∈ p.turns, p.totalStates t = 0 ∨
        p.totalStates t ≤ p.analyzedStates t) ∧
    (∀ turn c, getNextBatch p r = some (turn, c) →
      turn ∈ p.turns ∧ p.totalStates turn ≠ 0 ∧
      p.analyzedStates turn < p.totalStates turn ∧
      c = min (p.totalStates turn - p.analyzedStates turn) r ∧
      ∀ t ∈ p.turns, p.totalStates t ≠ 0 →
        p.analyzedStates t < p.totalStates t → t ≤ turn) := by
  constructor
  · rw [getNextBatch, findBatch_none_iff]
    constructor
    · intro h t ht
      exact h t (mem_sortDesc.mpr ht)
    · intro h t ht
      exact h t (mem_sortDesc.mp ht)
  · intro turn c h
    obtain ⟨hmem, hne, hlt, hc, hmax⟩ :=
      findBatch_some p.totalStates p.analyzedStates r (sortDesc p.turns)
        turn c (pairwise_sortDesc p.turns) h
    refine ⟨mem_sortDesc.mp hmem, hne, hlt, hc, ?_⟩
    intro t ht htn hta
    exact hmax t (mem_sortDesc.mpr ht) htn hta

theorem C9_getNextBatch_witness :
    5 ∈ progressExample.turns ∧
    progressExample.totalStates 5 ≠ 0 ∧
    progressExample.analyzedStates 5 < progressExample.totalStates 5 ∧
    (4 : Nat) = min (progressExample.totalStates 5
      - progressExample.analyzedStates 5) 4 ∧
    ∀ t ∈ progressExample.turns, progressExample.totalStates t ≠ 0 →
      progressExample.analyzedStates t < progressExample.totalStates t →
        t ≤ 5 :=
  (C9_getNextBatch progressExample 4).2 5 4 (by decide)

theorem heapGet_append_lt {h : Heap} {v : List Bool} {r : Nat}
    (hr : r < h.length) : heapGet (h ++ [v]) r = heapGet h r := by
  unfold heapGet
  rw [List.getD_eq_getElem?_getD, List.getD_eq_getElem?_getD,
    List.getElem?_append_left hr]

theorem heapGet_alloc_self (h : Heap) (v : List Bool) :
    heapGet (h ++ [v]) h.length = v := by
  unfold heapGet
  rw [List.getD_eq_getElem?_getD, List.getElem?_concat_length]
  rfl

theorem heapGet_set_ne {h : Heap} {r r' : Nat} {v : List Bool}
    (hne : r ≠ r') : heapGet (heapSet h r v) r' = heapGet h r' := by
  unfold heapGet heapSet
  rw [List.getD_eq_getElem?_getD, List.getD_eq_getElem?_getD,
    List.getElem?_set_ne hne]

theorem heapGet_set_self {h : Heap} {r : Nat} {v : List Bool}
    (hr : r < h.length) : heapGet (heapSet h r v) r = v := by
  unfold heapGet heapSet
  rw [List.getD_eq_getElem?_getD, List.getElem?_set_eq_of_lt v hr]
  rfl

theorem getWinner_eq_winnerOf (s : GameState) :
    getWinner s = winnerOf s.gameStatus := by
  unfold getWinner winnerOf
  cases s.gameStatus <;> rfl

theorem processTurnRef_chairsRef (h : Heap) (s : GameStateRef) (a b : Nat) :
    (processTurnRef h s a b).2.chairsRef = h.length := by
  unfold processTurnRef heapAlloc
  rcases Bool.eq_false_or_eq_true (a == b) with hab | hab <;>
    by_cases hpar : getCurrentAttacker s.currentTurn = PlayerNumber.PLAYER1 <;>
    simp only [hab, hpar, if_true, if_false, ite_true, ite_false, reduceIte,
      Bool.false_eq_true, reduceCtorEq] <;>
    split_ifs <;> rfl

theorem processTurnRef_heap (h : Heap) (s : GameStateRef) (a b : Nat) :
    (processTurnRef h s a b).1 = h ++ [heapGet h s.chairsRef] ∨
    (processTurnRef h s a b).1 =
      heapSet (h ++ [heapGet h s.chairsRef]) h.length
        ((heapGet (h ++ [heapGet h s.chairsRef]) h.length).set
          (a - 1) false) := by
  unfold processTurnRef heapAlloc
  rcases Bool.eq_false_or_eq_true (a == b) with hab | hab <;>
    by_cases hpar : getCurrentAttacker s.currentTurn = PlayerNumber.PLAYER1 <;>
    simp only [hab, hpar, if_true, if_false, ite_true, ite_false, reduceIte,
      Bool.false_eq_true, reduceCtorEq]
  all_goals simp

theorem processTurnRef_deref (h : Heap) (s : GameStateRef) (a b : Nat)
    (hr : s.chairsRef < h.length) :
    derefState (processTurnRef h s a b).1 (processTurnRef h s a b).2
      = (processTurn (derefState h s) a b).newGameState := by
  rw [processTurn_newGameState]
  have hv := heapGet_alloc_self h (heapGet h s.chairsRef)
  unfold processTurnRef heapAlloc
  rcases Bool.eq_false_or_eq_true (a == b) with hab | hab <;>
    by_cases hpar : s.currentTurn % 2 = 0
  · -- matched, even turn
    have hab' : a = b := by simpa using hab
    simp only [hab, hpar, getCurrentAttacker, if_true, if_false, ite_true,
      ite_false, reduceIte, Bool.false_eq_true, reduceCtorEq]
    have hd1 : derefState (h ++ [heapGet h s.chairsRef])
        { s with chairsRef := h.length, player1Score := 0,
                 player1ElectricCount := s.player1ElectricCount + 1 }
        = stepCore (derefState h s) a b := by
      unfold derefState stepCore
      simp [hab', hpar, hv]
    rw [hd1]
    by_cases hst : checkGameEnd (stepCore (derefState h s) a b)
        = GameStatus.IN_PROGRESS <;>
      simp only [hst, if_true, if_false, ite_true, ite_false, reduceIte] <;>
      rw [← hd1] <;>
      simp [derefState, getWinner_eq_winnerOf, hst]
  · -- matched, odd turn
    have hab' : a = b := by simpa using hab
    simp only [hab, hpar, getCurrentAttacker, if_true, if_false, ite_true,
      ite_false, reduceIte, Bool.false_eq_true, reduceCtorEq]
    have hd1 : derefState (h ++ [heapGet h s.chairsRef])
        { s with chairsRef := h.length, player2Score := 0,
                 player2ElectricCount := s.player2ElectricCount + 1 }
        = stepCore (derefState h s) a b := by
      unfold derefState stepCore
      simp [hab', hpar, hv]
    rw [hd1]
    by_cases hst : checkGameEnd (stepCore (derefState h s) a b)
        = GameStatus.IN_PROGRESS <;>
      simp only [hst, if_true, if_false, ite_true, ite_false, reduceIte] <;>
      rw [← hd1] <;>
      simp [derefState, getWinner_eq_winnerOf, hst]

  · -- unmatched (hab : (a == b) = false), even turn
    have hab' : ¬(a = b) := by simpa using hab
    simp only [hab, hpar, getCurrentAttacker, if_true, if_false, ite_true,
      ite_false, reduceIte, Bool.false_eq_true, reduceCtorEq]
    have hd1 : derefState
        (heapSet (h ++ [heapGet h s.chairsRef]) h.length
          ((heapGet (h ++ [heapGet h s.chairsRef]) h.length).set (a - 1) false))
        { s with chairsRef := h.length,
                 player1Score := s.player1Score + a }
        = stepCore (derefState h s) a b := by
      unfold derefState stepCore
      simp [hab', hpar, hv, heapGet_set_self,
        List.length_append]
    rw [hd1]
    by_cases hst : checkGameEnd (stepCore (derefState h s) a b)
        = GameStatus.IN_PROGRESS <;>
      simp only [hst, if_true, if_false, ite_true, ite_false, reduceIte] <;>
      rw [← hd1] <;>
      simp [derefState, getWinner_eq_winnerOf, hst]
  · -- unmatched, odd turn
    have hab' : ¬(a = b) := by simpa using hab
    simp only [hab, hpar, getCurrentAttacker, if_true, if_false, ite_true,
      ite_false, reduceIte, Bool.false_eq_true, reduceCtorEq]
    have hd1 : derefState
        (heapSet (h ++ [heapGet h s.chairsRef]) h.length
          ((heapGet (h ++ [heapGet h s.chairsRef]) h.length).set (a - 1) false))
        { s with chairsRef := h.length,
                 player2Score := s.player2Score + a }
        = stepCore (derefState h s) a b := by
      unfold derefState stepCore
      simp [hab', hpar, hv, heapGet_set_self,
        List.length_append]
    rw [hd1]
    by_cases hst : checkGameEnd (stepCore (derefState h s) a b)
        = GameStatus.IN_PROGRESS <;>
      simp only [hst, if_true, if_false, ite_true, ite_false, reduceIte] <;>
      rw [← hd1] <;>
      simp [derefState, getWinner_eq_winnerOf, hst]

/-- C10: `processTurn` does not modify its input: every array present in
the heap before the call — in particular the input state's
`chairsRemaining` — is unchanged afterwards, the successor carries a
freshly allocated reference distinct from the input's, and the successor
equals the pure `processTurn` result. -/
theorem C10_frame (h : Heap) (s : GameStateRef) (a b : Nat)
    (hr : s.chairsRef < h.length) :
    (∀ r, r < h.length →
      heapGet (processTurnRef h s a b).1 r = heapGet h r) ∧
    (processTurnRef h s a b).2.chairsRef ≠ s.chairsRef ∧
    heapGet (processTurnRef h s a b).1 s.chairsRef = heapGet h s.chairsRef ∧
    derefState (processTurnRef h s a b).1 (processTurnRef h s a b).2
      = (processTurn (derefState h s) a b).newGameState := by
  have hframe : ∀ r, r < h.length →
      heapGet (processTurnRef h s a b).1 r = heapGet h r := by
    intro r hrlt
    rcases processTurnRef_heap h s a b with hh | hh <;> rw [hh]
    · exact heapGet_append_lt hrlt
    · rw [heapGet_set_ne (by omega)]
      exact heapGet_append_lt hrlt
  refine ⟨hframe, ?_, hframe s.chairsRef hr, processTurnRef_deref h s a b hr⟩
  rw [processTurnRef_chairsRef]
  omega

theorem C10_frame_witness :
    heapGet (processTurnRef [List.replicate 12 true]
        { currentTurn := 0, chairsRef := 0, player1Score := 0,
          player2Score := 0, player1ElectricCount := 0,
          player2ElectricCount := 0,
          gameStatus := GameStatus.IN_PROGRESS, winner := none } 12 1).1 0
      = List.replicate 12 true ∧
    (processTurnRef [List.replicate 12 true]
        { currentTurn := 0, chairsRef := 0, player1Score := 0,
          player2Score := 0, player1ElectricCount := 0,
          player2ElectricCount := 0,
          gameStatus := GameStatus.IN_PROGRESS, winner := none } 12 1).2.chairsRef
      ≠ 0 :=
  ⟨((C10_frame [List.replicate 12 true] _ 12 1 (by decide)).1 0 (by decide)),
   (C10_frame [List.replicate 12 true] _ 12 1 (by decide)).2.1⟩

theorem C2_branch_behavior_witness :
    scoreOfPlayer (getChairSelector INITIAL_GAME_STATE.currentTurn)
        (processTurn INITIAL_GAME_STATE 1 1).newGameState = 0 ∧
    (processTurn INITIAL_GAME_STATE 1 1).chairRemoved = none :=
  ⟨((C2_branch_behavior INITIAL_GAME_STATE 1 1 rfl (by decide)
      (by decide)).2.1 rfl).1,
   ((C2_branch_behavior INITIAL_GAME_STATE 1 1 rfl (by decide)
      (by decide)).2.1 rfl).2.2.2⟩

end ElectricChair

